import Mathlib

/-!
Shallow embedding of the console/TTY driver (console.c of the OS repository):
the interrupt-driven input line discipline (`consoleintr`), the blocking
reader (`consoleread`), the CGA text-framebuffer output path (`cgaputc`,
`consputc`), the panic path (`panic`) and the formatted writer (`cprintf`).

Modelling conventions:
* The three input-buffer indices `r`, `w`, `e` are C `uint`s that in every
  reachable state satisfy `r ≤ w ≤ e ≤ r + 128`; they are modelled as
  unbounded `Nat` (32-bit wrap-around never occurs before 2^32 keystrokes
  and is outside every claim considered here).
* `char` cells of the 128-byte ring store the low byte of the stored int,
  so a store writes `c % 256`.
* Blocking (`sleep`) and a call spinning forever after a panic are modelled
  as explicit outcomes: `RRes.sleeps` for a read that reaches `sleep`, and
  `Except.error s` for an output call that hits the post-panic spin with
  observable machine state `s` (a spinning call performs no further writes,
  so `s` is its final observable state).
* External collaborators (`lidt` reboot, `procdump`, scheduler wake/sleep,
  uart, hardware cursor registers) are modelled by their effect on the
  driver-owned state only: the hardware cursor is the single `pos` field,
  the serial sink is the list of bytes sent to it, and `wakeup` is a
  counter of wakeup broadcasts.
-/

set_option maxRecDepth 8000

/-- Model of `struct { char buf[128]; uint r, w, e; } input`.
`buf` is a total map from `Nat`; the code only ever accesses `buf[i % 128]`. -/
structure Input where
  buf : Nat → Nat
  r : Nat
  w : Nat
  e : Nat

/-- INPUT_BUF. -/
def INPUT_BUF : Nat := 128

/-- Outcome of `consoleread` (or of its inner loop resumed after a wakeup):
either the function returns `val` (`target - n`, or `-1` on kill) having
copied the byte list `out` to `dst` and left the buffer in state `s`, or it
reaches `sleep(&input.r, &input.lock)` with `out` copied so far, buffer
state `s` and `n` bytes still wanted. -/
inductive RRes where
  | ret (val : Int) (out : List Nat) (s : Input)
  | sleeps (out : List Nat) (s : Input) (n : Nat)

/-- The body of `consoleread`'s `while(n > 0)` loop, one iteration per
fuel step; `target` is the originally requested byte count.  Mirrors:
`while(n > 0){ while(r == w){ if(killed) return -1; sleep; }
c = buf[r++ % 128]; if(c == C('D')){ if(n < target) r--; break; }
*dst++ = c; --n; if(c == '\n') break; } return target - n`. -/
def readLoop (killed : Bool) (target : Nat) : Nat → List Nat → Input → RRes
  | 0, out, s => .ret (target : Int) out s
  | n+1, out, s =>
    if s.r = s.w then
      if killed then .ret (-1) out s else .sleeps out s (n+1)
    else
      let c := s.buf (s.r % INPUT_BUF)
      let s1 : Input := { s with r := s.r + 1 }
      if c = 4 then
        -- C('D'), EOF: push back unless nothing was requested yet
        if n + 1 < target then .ret ((target : Int) - (n+1)) out { s1 with r := s1.r - 1 }
        else .ret ((target : Int) - (n+1)) out s1
      else if c = 10 then
        .ret ((target : Int) - n) (out ++ [c]) s1
      else
        readLoop killed target n (out ++ [c]) s1

/-- Function `consoleread(ip, dst, n)`; the inode lock hand-off is external. -/
def consoleread (killed : Bool) (n : Nat) (s : Input) : RRes :=
  readLoop killed n n [] s

/-- Final input-buffer state recorded in a read outcome. -/
def rresState : RRes → Input
  | .ret _ _ s => s
  | .sleeps _ s _ => s

/-- The input-buffer invariant claimed by the spec: `r ≤ w ≤ e` and
`e - r ≤ 128`. -/
def InputInv (s : Input) : Prop := s.r ≤ s.w ∧ s.w ≤ s.e ∧ s.e - s.r ≤ INPUT_BUF

/-- COLUMNS. -/
def COLUMNS : Nat := 80

/-- The BACKSPACE pseudo-character 0x100 handed to `consputc`/`cgaputc`. -/
def BACKSPACE : Nat := 256

/-- DEFAULT_CONSOLE_COLOR = CGA_FONT_COLOR(VGA_LIGHT_GRAY, VGA_BLACK) = (0 << 4) + 7. -/
def DEFAULT_CONSOLE_COLOR : Nat := 7

/-- The CGA text framebuffer together with the hardware cursor.
`crt` is the 25*80-cell grid at VGA_TEXT_MEM, one `uint16` per cell;
`pos` is the linear cursor offset held in the two CRTPORT registers
(the code reads it at entry and writes it back at exit, so it is the
single source of truth between calls); `scrolls` is a ghost counter of
executed scroll operations, used to state the scrolling claims. -/
structure Cga where
  crt : List Nat
  pos : Nat
  scrolls : Nat

/-- Function `cgaputc(c, color)`.  Newline advances to the next row start,
BACKSPACE moves back one cell when `pos > 0`, anything else stores
`(c & 0xFF) | (color << 8)` (truncated to the 16-bit cell) and advances.
If the cursor then sits at row index >= 24, the grid is shifted up one row
(`memmove` of 23*80 cells from offset 80 to 0), `pos` drops by one row and
`memset` clears cells `pos .. 24*80-1`.  Finally the caret cell
`' ' | 0x0700` is drawn at the new cursor. -/
def cgaputcC (c color : Nat) (g : Cga) : Cga :=
  match g with
  | ⟨crt0, pos0, scr0⟩ =>
    let crt1 := if c = 10 ∨ c = BACKSPACE then crt0
                else crt0.set pos0 (c % 256 + 256 * (color % 256))
    let pos1 := if c = 10 then pos0 + (COLUMNS - pos0 % COLUMNS)
                else if c = BACKSPACE then (if 0 < pos0 then pos0 - 1 else pos0)
                else pos0 + 1
    if 24 ≤ pos1 / COLUMNS then
      let pos2 := pos1 - COLUMNS
      let moved := (crt1.drop COLUMNS).take (23 * COLUMNS) ++ crt1.drop (23 * COLUMNS)
      let cleared := moved.take pos2 ++ List.replicate (24 * COLUMNS - pos2) 0 ++
                     moved.drop (24 * COLUMNS)
      ⟨cleared.set pos2 (32 + 256 * 7), pos2, scr0 + 1⟩
    else
      ⟨crt1.set pos1 (32 + 256 * 7), pos1, scr0⟩

/-- Writing a sequence of characters through the output routine with the
default attribute, as `consolewrite` does. -/
def writeSeq (cs : List Nat) (g : Cga) : Cga :=
  cs.foldl (fun g c => cgaputcC c DEFAULT_CONSOLE_COLOR g) g

/-- The empty screen: every cell zeroed (`console_setbackgroundcolor`
with VGA_BLACK memsets the buffer to zero bytes), cursor at offset 0. -/
def cgaInit : Cga := ⟨List.replicate (25 * COLUMNS) 0, 0, 0⟩

/-- The whole driver-owned machine state: the panic flag, the
`cons.locking` toggle, the interrupt-enable state of the calling core,
the input buffer, the framebuffer/cursor, the bytes sent to the serial
sink, and a ghost counter of `wakeup(&input.r)` broadcasts. -/
structure Sys where
  panicked : Bool
  locking : Bool
  intsOn : Bool
  input : Input
  cga : Cga
  serial : List Nat
  wakeups : Nat

/-- Bytes `consputc` sends to the uart for one character: BACKSPACE is the
3-byte erase sequence, anything else goes out verbatim. -/
def serialOf (c : Nat) : List Nat :=
  if c = BACKSPACE then [8, 32, 8] else [c]

/-- Function `consputc(c, color)`.  A call that observes `panicked`
disables interrupts and spins forever; its final observable state (the
`.error` payload) differs from the entry state only in `intsOn`, since a
spinning call performs no serial or framebuffer write.  Otherwise the
character goes to the serial sink and through `cgaputc`. -/
def consputcC (c color : Nat) (s : Sys) : Except Sys Sys :=
  if s.panicked then .error { s with intsOn := false }
  else .ok { s with serial := s.serial ++ serialOf c, cga := cgaputcC c color s.cga }

/-- The C('U') kill-line loop: `while(e != w && buf[(e-1) % 128] != '\n')
{ e--; consputc(BACKSPACE); }`.  The fuel `e - w` bounds the iteration
count in every state with `w ≤ e` (each pass decrements `e` and the guard
fails at `e = w`), so on those states this equals the C loop. -/
def killLoopS : Nat → Sys → Except Sys Sys
  | 0, s => .ok s
  | fuel+1, s =>
    if s.input.e ≠ s.input.w ∧ s.input.buf ((s.input.e - 1) % INPUT_BUF) ≠ 10 then
      match consputcC BACKSPACE DEFAULT_CONSOLE_COLOR
          { s with input := { s.input with e := s.input.e - 1 } } with
      | .ok s2 => killLoopS fuel s2
      | .error s2 => .error s2
    else .ok s

/-- One switch dispatch of `consoleintr` on a character `c` pulled from the
keyboard callback.  C('Z') reboots via `lidt(0,0)` and C('P') calls
`procdump`, both external with no effect on driver state.  C('U') kills the
line, C('H')/DEL backspace, and the default case stores the (CR-translated)
character when it is nonzero and the ring has room, echoes it, and commits
(`w := e` plus a wakeup broadcast) on newline, C('D') or a full buffer. -/
def sysIntr1 (c : Nat) (s : Sys) : Except Sys Sys :=
  if c = 26 then .ok s
  else if c = 16 then .ok s
  else if c = 21 then killLoopS (s.input.e - s.input.w) s
  else if c = 8 ∨ c = 127 then
    if s.input.e ≠ s.input.w then
      let s1 : Sys := { s with input := { s.input with e := s.input.e - 1 } }
      consputcC BACKSPACE DEFAULT_CONSOLE_COLOR s1
    else .ok s
  else
    if c ≠ 0 ∧ s.input.e - s.input.r < INPUT_BUF then
      let c1 := if c = 13 then 10 else c
      let s1 : Sys := { s with input :=
        { s.input with
          buf := fun i => if i = s.input.e % INPUT_BUF then c1 % 256 else s.input.buf i,
          e := s.input.e + 1 } }
      match consputcC c1 DEFAULT_CONSOLE_COLOR s1 with
      | .error s2 => .error s2
      | .ok s2 =>
        if c1 = 10 ∨ c1 = 4 ∨ s2.input.e = s2.input.r + INPUT_BUF then
          .ok { s2 with input := { s2.input with w := s2.input.e }, wakeups := s2.wakeups + 1 }
        else
          .ok s2
    else .ok s

/-- Function `consoleintr(getc)`: the characters the callback yields before
returning its negative sentinel, processed in order; a call that hits the
post-panic spin inside an echo stops there (`.error`). -/
def sysIntrList (cs : List Nat) (s : Sys) : Except Sys Sys :=
  match cs with
  | [] => .ok s
  | c :: rest =>
    match sysIntr1 c s with
    | .ok s1 => sysIntrList rest s1
    | .error s1 => .error s1

/-- A variadic argument of `cprintf`: an int, a pointer, or a `char*`
(where `Option.none` is the null pointer and `some l` points at the bytes
`l` before the terminating NUL). -/
inductive Arg where
  | int (i : Int)
  | ptr (p : Nat)
  | str (s : Option (List Nat))

/-- The static table `digits[] = "0123456789abcdef"`. -/
def hexdigits : List Nat :=
  [48, 49, 50, 51, 52, 53, 54, 55, 56, 57, 97, 98, 99, 100, 101, 102]

/-- The do-while digit loop of `printint`, least significant digit first.
Fuel `x + 1` is enough for base 10 and 16 (the only bases the code uses). -/
def printintDigits : Nat → Nat → Nat → List Nat
  | 0, _, _ => []
  | fuel+1, x, base =>
    hexdigits.getD (x % base) 0 ::
      (if x / base = 0 then [] else printintDigits fuel (x / base) base)

/-- Characters `printint(xx, base, sign)` sends to `consputc`.  With
`sign` set and `xx < 0` the magnitude `-xx` is taken as a 32-bit unsigned
value, and a '-' goes in front; otherwise `xx` itself is reinterpreted as
32-bit unsigned. -/
def printintOut (xx : Int) (base : Nat) (sgn : Bool) : List Nat :=
  let x : Nat := if sgn ∧ xx < 0 then ((-xx).emod (2 ^ 32)).toNat
                 else (xx.emod (2 ^ 32)).toNat
  let buf := printintDigits (x + 1) x base
  (if sgn ∧ xx < 0 then buf ++ [45] else buf).reverse

/-- Characters `printptr(x)` emits: the 16 nibbles of the 64-bit value,
most significant first, via repeated `x <<= 4`. -/
def printptrOut : Nat → Nat → List Nat
  | 0, _ => []
  | k+1, x => hexdigits.getD (x / 2 ^ 60) 0 :: printptrOut k (x * 16 % 2 ^ 64)

/-- The placeholder bytes "(null)" substituted for a null `%s` argument. -/
def nullStr : List Nat := [40, 110, 117, 108, 108, 41]

/-- Reading a variadic slot as int.  A kind mismatch is undefined
behaviour in C; the model fixes arbitrary values that no claim relies on. -/
def argInt : Arg → Int
  | .int i => i
  | .ptr p => (p : Int)
  | .str _ => 0

/-- Reading a variadic slot as a 64-bit pointer value. -/
def argPtr : Arg → Nat
  | .int i => (i.emod (2 ^ 64)).toNat
  | .ptr p => p % 2 ^ 64
  | .str _ => 0

/-- Reading a variadic slot as a `char*`. -/
def argStr : Arg → Option (List Nat)
  | .str s => s
  | .int _ => some []
  | .ptr _ => some []

/-- The byte stream `cprintf(fmt, args)` sends to `consputc`: literal
bytes pass through, `%d`/`%x`/`%p` format one argument, `%s` walks the
string argument (the null pointer becomes "(null)"), `%%` emits a percent,
any other directive is echoed verbatim behind its percent sign, and a NUL
byte (also one right after a percent) ends the walk. -/
def cprintfOut : List Nat → List Arg → List Nat
  | [], _ => []
  | c0 :: rest, args =>
    let c := c0 % 256
    if c = 0 then []
    else if c ≠ 37 then c :: cprintfOut rest args
    else
      match rest with
      | [] => []
      | d0 :: rest2 =>
        let d := d0 % 256
        if d = 0 then []
        else if d = 100 then
          printintOut (argInt (args.headD (.int 0))) 10 true ++ cprintfOut rest2 args.tail
        else if d = 120 then
          printintOut (argInt (args.headD (.int 0))) 16 false ++ cprintfOut rest2 args.tail
        else if d = 112 then
          printptrOut 16 (argPtr (args.headD (.int 0))) ++ cprintfOut rest2 args.tail
        else if d = 115 then
          (match argStr (args.headD (.int 0)) with
           | some l => l.takeWhile (fun x => x ≠ 0)
           | none => nullStr) ++ cprintfOut rest2 args.tail
        else if d = 37 then 37 :: cprintfOut rest2 args
        else 37 :: d :: cprintfOut rest2 args

/-- Folding a byte stream through `consputc`, stopping at a post-panic
spin; this is the output loop shared by `consolewrite` and `cprintf`. -/
def foldPutc (cs : List Nat) (color : Nat) (s : Sys) : Except Sys Sys :=
  match cs with
  | [] => .ok s
  | c :: rest =>
    match consputcC c color s with
    | .ok s1 => foldPutc rest color s1
    | .error s1 => .error s1

/-- Function `cprintf` at the machine-state level (lock handling aside,
which the model leaves uninterpreted). -/
def sysCprintf (fmt : List Nat) (args : List Arg) (s : Sys) : Except Sys Sys :=
  foldPutc (cprintfOut fmt args) DEFAULT_CONSOLE_COLOR s

/-- The bytes of "\n\nPANIC on cpu %d\n ". -/
def panicBanner : List Nat :=
  [10, 10, 80, 65, 78, 73, 67, 32, 111, 110, 32, 99, 112, 117, 32, 37, 100, 10, 32]

/-- The bytes of "\nSTACK:\n". -/
def panicStackHdr : List Nat := [10, 83, 84, 65, 67, 75, 58, 10]

/-- The bytes of " [%d] %p\n". -/
def panicPcsFmt : List Nat := [32, 91, 37, 100, 93, 32, 37, 112, 10]

/-- The bytes of "HLT\n". -/
def panicHlt : List Nat := [72, 76, 84, 10]

/-- The return-address loop of `panic`: `for(i = 0; i < 10 && pcs[i]; i++)
cprintf(" [%d] %p\n", i, pcs[i])`, on the 10 frames `getcallerpcs` fills. -/
def panicPcsOut : Nat → List Nat → List Nat
  | _, [] => []
  | i, p :: rest =>
    if 10 ≤ i ∨ p = 0 then []
    else cprintfOut panicPcsFmt [.int (i : Int), .ptr p] ++ panicPcsOut (i + 1) rest

/-- Function `panic(s)`: disable interrupts, turn console locking off,
print the banner (with the calling core's id), the message, the stack
frames and "HLT", set `panicked`, then halt this core forever.  If printing
itself hits the spin (another core already panicked), the call hangs there
with the flag of that earlier panic still set. -/
def sysPanic (cpuid : Nat) (msg : List Nat) (pcs : List Nat) (s : Sys) : Sys :=
  let s1 : Sys := { s with intsOn := false, locking := false }
  let out := cprintfOut panicBanner [.int (cpuid : Int)] ++ cprintfOut msg [] ++
             cprintfOut panicStackHdr [] ++ panicPcsOut 0 pcs ++ cprintfOut panicHlt []
  match foldPutc out DEFAULT_CONSOLE_COLOR s1 with
  | .ok s2 => { s2 with panicked := true }
  | .error s2 => s2

/-- The final observable machine state of a call, whether it returned
(`.ok`) or hung in the post-panic spin (`.error`). -/
def stateOfE : Except Sys Sys → Sys
  | .ok s => s
  | .error s => s

/-- The entry points of the driver, with the external inputs each one
consumes: the decoded keystroke batch of an interrupt, the request size
and kill mark of a read, the bytes of a write, a direct `consputc`, a
`cprintf`, and a `panic` with the core id and stack frames it prints. -/
inductive Op where
  | intr (cs : List Nat)
  | read (killed : Bool) (n : Nat)
  | write (bs : List Nat)
  | putc (c color : Nat)
  | printf (fmt : List Nat) (args : List Arg)
  | panicOp (cpuid : Nat) (msg : List Nat) (pcs : List Nat)

/-- Effect of one driver entry point on the machine state
(`consolewrite` masks each byte with 0xff before `consputc`). -/
def run : Op → Sys → Sys
  | .intr cs, s => stateOfE (sysIntrList cs s)
  | .read killed n, s => { s with input := rresState (consoleread killed n s.input) }
  | .write bs, s => stateOfE (foldPutc (bs.map (fun b => b % 256)) DEFAULT_CONSOLE_COLOR s)
  | .putc c color, s => stateOfE (consputcC c color s)
  | .printf fmt args, s => stateOfE (sysCprintf fmt args s)
  | .panicOp cpuid msg pcs, s => sysPanic cpuid msg pcs s

/-- The boot state `consoleinit` establishes: locking on, not panicked,
all indices zero, empty screen.  (The boot banner it then prints only
moves the cursor and sinks, which no input-buffer claim depends on.) -/
def sys0 : Sys :=
  { panicked := false, locking := true, intsOn := true,
    input := ⟨fun _ => 0, 0, 0, 0⟩, cga := cgaInit, serial := [], wakeups := 0 }

/-- States reachable from boot: any sequence of entry points, plus the
resumption of a read loop that slept and was woken (`sleep` returns with
the lock reacquired and the loop continues with its saved arguments). -/
inductive Reach : Sys → Prop where
  | init : Reach sys0
  | step (op : Op) {s : Sys} : Reach s → Reach (run op s)
  | resume (killed : Bool) (t n : Nat) (acc : List Nat) {s : Sys} :
      Reach s → Reach { s with input := rresState (readLoop killed t n acc s.input) }

/-- Entry points that perform none of the two erase edits (backspace,
kill-line): every other operation leaves `e` alone or increases it. -/
def editFree : Op → Prop
  | .intr cs => ∀ c ∈ cs, c ≠ 8 ∧ c ≠ 127 ∧ c ≠ 21
  | _ => True

/-- Row `k` of a framebuffer: the 80 cells starting at offset 80 * k. -/
def row (k : Nat) (l : List Nat) : List Nat := (l.drop (COLUMNS * k)).take COLUMNS

/-- The 16-bit cell a printable character occupies when stored with the
default attribute. -/
def cellOf (c : Nat) : Nat := c % 256 + 256 * (DEFAULT_CONSOLE_COLOR % 256)

/-- CLAIM C7: a read that finds `r == w` while the caller is marked killed
returns -1, delivers no bytes and leaves the buffer untouched. -/
theorem consoleread_killed_empty (n : Nat) (s : Input)
    (hn : 0 < n) (hrw : s.r = s.w) :
    consoleread true n s = .ret (-1) [] s := by
  obtain ⟨m, rfl⟩ : ∃ m, n = m + 1 := ⟨n - 1, by omega⟩
  simp [consoleread, readLoop, hrw]

/-- Witness for `consoleread_killed_empty` at a concrete input. -/
theorem consoleread_killed_empty_witness :
    consoleread true 3 ⟨fun _ => 0, 5, 5, 5⟩ = .ret (-1) [] ⟨fun _ => 0, 5, 5, 5⟩ :=
  consoleread_killed_empty 3 ⟨fun _ => 0, 5, 5, 5⟩ (by decide) rfl

/-- CLAIM C10: a keystroke with code 0 is dropped by `consoleintr` with no
effect whatsoever: in every machine state (whatever free room the ring
has) the call returns with the buffer, the indices, the echo sinks and the
wakeup count exactly as they were, and without committing. -/
theorem consoleintr_nul_dropped (s : Sys) : sysIntr1 0 s = .ok s := rfl

/-- Consuming a run of `cnt` committed plain characters (neither the EOF
mark 4 nor the newline 10): the read loop delivers them in order, spends
`cnt` of its remaining count, and advances `r` by `cnt`. -/
theorem readLoop_consume (k : Bool) (t : Nat) :
    ∀ (cnt n : Nat) (acc : List Nat) (buf : Nat → Nat) (r w e : Nat),
      cnt ≤ n → r + cnt ≤ w →
      (∀ i, i < cnt → buf ((r + i) % INPUT_BUF) ≠ 4 ∧
        buf ((r + i) % INPUT_BUF) ≠ 10) →
      readLoop k t n acc ⟨buf, r, w, e⟩ =
        readLoop k t (n - cnt)
          (acc ++ (List.range cnt).map (fun i => buf ((r + i) % INPUT_BUF)))
          ⟨buf, r + cnt, w, e⟩ := by
  intro cnt
  induction cnt with
  | zero =>
    intro n acc buf r w e _ _ _
    simp
  | succ m ih =>
    intro n acc buf r w e hcnt hw hchar
    obtain ⟨n', rfl⟩ : ∃ n', n = n' + 1 := ⟨n - 1, by omega⟩
    rw [readLoop]
    simp only []
    rw [if_neg (by omega : ¬ r = w)]
    obtain ⟨hc4, hc10⟩ := hchar 0 (by omega)
    rw [if_neg (by simpa using hc4), if_neg (by simpa using hc10)]
    rw [ih n' (acc ++ [buf (r % INPUT_BUF)]) buf (r + 1) w e (by omega)
        (by omega)
        (fun i hi => by
          have h2 := hchar (i + 1) (by omega)
          have harith : r + 1 + i = r + (i + 1) := by omega
          rw [harith]
          exact h2)]
    have hf : n' + 1 - (m + 1) = n' - m := by omega
    have hs : r + 1 + m = r + (m + 1) := by omega
    have hlist : (acc ++ [buf (r % INPUT_BUF)]) ++
        (List.range m).map (fun i => buf ((r + 1 + i) % INPUT_BUF)) =
        acc ++ (List.range (m + 1)).map (fun i => buf ((r + i) % INPUT_BUF)) := by
      rw [List.append_assoc]
      congr 1
      rw [List.range_succ_eq_map, List.map_cons, List.map_map,
        List.singleton_append]
      congr 1
      apply List.map_congr_left
      intro a _
      show buf ((r + 1 + a) % INPUT_BUF) = buf ((r + (a + 1)) % INPUT_BUF)
      have harr : r + 1 + a = r + (a + 1) := by omega
      rw [harr]
    rw [hf, hs, hlist]

/-- Reading the first `n` entries of a list through `getD`. -/
theorem map_getD_range (l : List Nat) : ∀ n, n ≤ l.length →
    (List.range n).map (fun i => l.getD i 0) = l.take n := by
  intro n
  induction n with
  | zero => intro _; simp
  | succ m ih =>
    intro h
    rw [List.range_succ, List.map_append, ih (by omega), List.take_succ]
    simp [List.getElem?_eq_getElem (show m < l.length by omega),
      List.getD_eq_getElem l 0 (show m < l.length by omega)]

/-- The tail of a list from position `n`, rebuilt from its entries: all
but the last via `getD`, then the last entry. -/
theorem take_map_getD_drop (line : List Nat) (n : Nat) (h : n < line.length) :
    (List.range (line.length - 1 - n)).map (fun i => line.getD (n + i) 0) ++
      [line.getD (line.length - 1) 0] = line.drop n := by
  have hlen : (line.drop n).length = line.length - n := List.length_drop n line
  have h1 : (List.range (line.length - 1 - n)).map (fun i => line.getD (n + i) 0) =
      (line.drop n).take (line.length - 1 - n) := by
    rw [← map_getD_range (line.drop n) (line.length - 1 - n) (by omega)]
    apply List.map_congr_left
    intro a _
    rw [List.getD_eq_getElem?_getD, List.getD_eq_getElem?_getD, List.getElem?_drop]
  have hne : line.drop n ≠ [] := List.length_pos.mp (by omega)
  have h2 := List.dropLast_append_getLast hne
  rw [List.dropLast_eq_take] at h2
  have h3 : (line.drop n).getLast hne = line.getD (line.length - 1) 0 := by
    have hq : (line.drop n).getD ((line.drop n).length - 1) 0 =
        line.getD (n + ((line.drop n).length - 1)) 0 := by
      rw [List.getD_eq_getElem?_getD, List.getD_eq_getElem?_getD, List.getElem?_drop]
    have hl : (line.drop n).getLast hne =
        (line.drop n).getD ((line.drop n).length - 1) 0 := by
      rw [List.getD_eq_getElem _ 0 (by omega)]
      exact List.getLast_eq_getElem _ hne
    have hidx : n + ((line.drop n).length - 1) = line.length - 1 := by omega
    rw [hl, hq, hidx]
  rw [h3] at h2
  rw [h1]
  have hc : (line.drop n).length - 1 = line.length - 1 - n := by omega
  rw [hc] at h2
  exact h2

/-- CLAIM C5: a fully committed line of length L (its last byte the
newline, nothing before it a newline or the EOF mark) read with a request
of `n < L` bytes delivers exactly the first `n` bytes and returns `n`; the
next read (any request of at least the `L - n` leftover bytes) delivers
exactly the remaining bytes of the line, with no duplication and no loss,
stopping at the newline. -/
theorem read_partial_line (line : List Nat) (n m : Nat) (s : Input)
    (hn : 0 < n) (hnL : n < line.length)
    (hBuf : ∀ i, i < line.length → s.buf ((s.r + i) % INPUT_BUF) = line.getD i 0)
    (hMid : ∀ i, i < line.length - 1 → line.getD i 0 ≠ 10 ∧ line.getD i 0 ≠ 4)
    (hLast : line.getD (line.length - 1) 0 = 10)
    (hW : s.w = s.r + line.length)
    (hm : line.length - n ≤ m) :
    consoleread false n s = .ret (n : Int) (line.take n) { s with r := s.r + n } ∧
    consoleread false m { s with r := s.r + n } =
      .ret ((line.length - n : Nat) : Int) (line.drop n)
        { s with r := s.r + line.length } := by
  obtain ⟨buf, r, w, e⟩ := s
  simp only [Input.buf, Input.r, Input.w, Input.e] at hBuf hW
  subst hW
  constructor
  · have hcons := readLoop_consume false n n n [] buf r (r + line.length) e
      (le_refl n) (by omega)
      (fun i hi => by
        have h2 := hMid i (by omega)
        rw [hBuf i (by omega)]
        exact ⟨h2.2, h2.1⟩)
    have hout : (List.range n).map (fun i => buf ((r + i) % INPUT_BUF)) =
        line.take n := by
      rw [← map_getD_range line n (by omega)]
      apply List.map_congr_left
      intro a ha
      simp only [List.mem_range] at ha
      exact hBuf a (by omega)
    rw [consoleread, hcons, Nat.sub_self, List.nil_append, hout]
    rfl
  · have hcons2 := readLoop_consume false m (line.length - 1 - n) m [] buf (r + n)
      (r + line.length) e (by omega) (by omega)
      (fun i hi => by
        have h2 := hMid (n + i) (by omega)
        have harr : r + n + i = r + (n + i) := by omega
        rw [harr, hBuf (n + i) (by omega)]
        exact ⟨h2.2, h2.1⟩)
    rw [consoleread, hcons2, List.nil_append]
    have hfuel : m - (line.length - 1 - n) = (m - (line.length - n)) + 1 := by omega
    have hidx : r + n + (line.length - 1 - n) = r + (line.length - 1) := by omega
    rw [hfuel, hidx, readLoop]
    simp only []
    rw [if_neg (by omega : ¬ r + (line.length - 1) = r + line.length)]
    have hc : buf ((r + (line.length - 1)) % INPUT_BUF) = 10 := by
      rw [hBuf (line.length - 1) (by omega), hLast]
    rw [hc]
    rw [if_neg (by decide : ¬ (10 : Nat) = 4), if_pos (rfl : (10 : Nat) = 10)]
    have hpoint2 : (List.range (line.length - 1 - n)).map
        (fun i => buf ((r + n + i) % INPUT_BUF)) =
        (List.range (line.length - 1 - n)).map (fun i => line.getD (n + i) 0) := by
      apply List.map_congr_left
      intro a ha
      simp only [List.mem_range] at ha
      have harr : r + n + a = r + (n + a) := by omega
      rw [harr]
      exact hBuf (n + a) (by omega)
    have hout2 : (List.range (line.length - 1 - n)).map
        (fun i => buf ((r + n + i) % INPUT_BUF)) ++ [(10 : Nat)] = line.drop n := by
      rw [hpoint2, ← hLast, take_map_getD_drop line n hnL]
    rw [hout2]
    have hval : (m : Int) - ((m - (line.length - n) : Nat) : Int) =
        ((line.length - n : Nat) : Int) := by omega
    have hr2 : r + (line.length - 1) + 1 = r + line.length := by omega
    rw [hval, hr2]

/-- Witness for `read_partial_line` at a concrete input: the committed
line "ab\n", first read of 1 byte, second read of up to 5 bytes. -/
theorem read_partial_line_witness :
    consoleread false 1 ⟨fun i => if i = 0 then 97 else if i = 1 then 98
        else if i = 2 then 10 else 0, 0, 3, 3⟩ =
      .ret 1 [97] ⟨fun i => if i = 0 then 97 else if i = 1 then 98
        else if i = 2 then 10 else 0, 1, 3, 3⟩ ∧
    consoleread false 5 ⟨fun i => if i = 0 then 97 else if i = 1 then 98
        else if i = 2 then 10 else 0, 1, 3, 3⟩ =
      .ret 2 [98, 10] ⟨fun i => if i = 0 then 97 else if i = 1 then 98
        else if i = 2 then 10 else 0, 3, 3, 3⟩ :=
  read_partial_line [97, 98, 10] 1 5
    ⟨fun i => if i = 0 then 97 else if i = 1 then 98
      else if i = 2 then 10 else 0, 0, 3, 3⟩
    (by decide) (by decide) (by decide) (by decide) (by decide) (by decide)
    (by decide)

/-- Unrolling `writeSeq` one character at a time. -/
theorem writeSeq_cons (c : Nat) (cs : List Nat) (g : Cga) :
    writeSeq (c :: cs) g = writeSeq cs (cgaputcC c DEFAULT_CONSOLE_COLOR g) := rfl

/-- Splitting a `writeSeq` run. -/
theorem writeSeq_append (l1 l2 : List Nat) (g : Cga) :
    writeSeq (l1 ++ l2) g = writeSeq l2 (writeSeq l1 g) := by
  simp [writeSeq, List.foldl_append]

/-- A stored (non-newline, non-BACKSPACE) character whose new cursor
offset stays below row 24 causes no scroll: the cell is stored at the old
cursor, the caret is drawn one cell further, and that is all. -/
theorem cgaputcC_no_scroll (c color : Nat) (g : Cga)
    (hc1 : c ≠ 10) (hc2 : c ≠ BACKSPACE) (hpos : g.pos + 1 < 1920) :
    cgaputcC c color g =
      ⟨(g.crt.set g.pos (c % 256 + 256 * (color % 256))).set (g.pos + 1) (32 + 256 * 7),
        g.pos + 1, g.scrolls⟩ := by
  obtain ⟨crt, pos, scr⟩ := g
  simp only [Cga.pos] at hpos
  have hs : ¬ 24 ≤ (pos + 1) / COLUMNS := by
    simp only [COLUMNS]; omega
  simp [cgaputcC, hc1, hc2, hs]

/-- A stored character at cursor offset 1919 (last cell of row 23) puts
the new cursor at offset 1920, which is row 24, so the grid scrolls:
afterwards the cursor is at 1840 and the scroll counter went up by one. -/
theorem cgaputcC_scroll_pos (c color : Nat) (g : Cga)
    (hc1 : c ≠ 10) (hc2 : c ≠ BACKSPACE) (hpos : g.pos = 1919) :
    (cgaputcC c color g).pos = 1840 ∧
      (cgaputcC c color g).scrolls = g.scrolls + 1 := by
  obtain ⟨crt, pos, scr⟩ := g
  simp only [Cga.pos] at hpos
  subst hpos
  have hs : 24 ≤ (1919 + 1) / COLUMNS := by decide
  simp [cgaputcC, hc1, hc2, hs, COLUMNS]

/-- A run of stored characters that never reaches row 24 advances the
cursor by its length and never scrolls. -/
theorem writeSeq_no_scroll (cs : List Nat) : ∀ g : Cga,
    (∀ c ∈ cs, c ≠ 10 ∧ c ≠ BACKSPACE) → g.pos + cs.length < 1920 →
    (writeSeq cs g).pos = g.pos + cs.length ∧
      (writeSeq cs g).scrolls = g.scrolls := by
  induction cs with
  | nil => intro g _ _; simp [writeSeq]
  | cons c rest ih =>
    intro g hcs hpos
    obtain ⟨hc1, hc2⟩ := hcs c (by simp)
    rw [writeSeq_cons,
        cgaputcC_no_scroll c DEFAULT_CONSOLE_COLOR g hc1 hc2 (by simp at hpos; omega)]
    have h2 := ih
      ⟨(g.crt.set g.pos (c % 256 + 256 * (DEFAULT_CONSOLE_COLOR % 256))).set
          (g.pos + 1) (32 + 256 * 7), g.pos + 1, g.scrolls⟩
      (fun x hx => hcs x (by simp [hx]))
      (by simp only [Cga.pos]; simp at hpos; omega)
    simp only [Cga.pos, Cga.scrolls] at h2
    refine ⟨?_, h2.2⟩
    rw [h2.1]; simp; omega

/-- Writing a single character. -/
theorem writeSeq_one (c : Nat) (g : Cga) :
    writeSeq (List.replicate 1 c) g = cgaputcC c DEFAULT_CONSOLE_COLOR g := rfl

/-- Overwriting the cell right behind a known prefix. -/
theorem set_at_boundary (A R : List Nat) (i x v : Nat) (h : i = A.length) :
    (A ++ x :: R).set i v = A ++ v :: R := by
  subst h
  rw [List.set_append_right _ _ (le_refl _), Nat.sub_self, List.set_cons_zero]

/-- Storing a character and the caret into a fresh screen. -/
theorem set01_replicate (x y : Nat) :
    ((List.replicate 2000 (0 : Nat)).set 0 x).set 1 y =
      x :: y :: List.replicate 1998 0 := by
  rw [show List.replicate 2000 (0 : Nat) = 0 :: 0 :: List.replicate 1998 0 from rfl,
    List.set_cons_zero, List.set_cons_succ, List.set_cons_zero]

/-- The screen trajectory of the first at most 1919 printable characters
written on the empty screen: after `k` of them the first `k` cells hold
their glyphs, the caret cell sits at offset `k`, every further cell is
still clear, the cursor is at `k`, and nothing has scrolled. -/
theorem writeSeq_trajectory : ∀ (cs : List Nat), cs ≠ [] →
    cs.length ≤ 1919 → (∀ c ∈ cs, 32 ≤ c ∧ c ≤ 126) →
    writeSeq cs cgaInit =
      ⟨cs.map cellOf ++ 1824 :: List.replicate (1999 - cs.length) 0,
        cs.length, 0⟩ := by
  intro cs
  induction cs using List.reverseRecOn with
  | nil => intro hne _ _; exact absurd rfl hne
  | append_singleton l c ih =>
    intro _ hlen hcs
    obtain ⟨hc1, hc2⟩ := hcs c (by simp)
    have hc10 : c ≠ 10 := by omega
    have hc256 : c ≠ BACKSPACE := by show c ≠ 256; omega
    rcases eq_or_ne l [] with rfl | hlne
    · rw [List.nil_append,
        show writeSeq [c] cgaInit = cgaputcC c DEFAULT_CONSOLE_COLOR cgaInit from rfl,
        cgaputcC_no_scroll c DEFAULT_CONSOLE_COLOR cgaInit hc10 hc256 (by decide)]
      simp only [cgaInit]
      norm_num [COLUMNS]
      rw [set01_replicate]
      simp [cellOf]
    · have hll : l.length ≤ 1918 := by
        have := hlen; simp at this; omega
      rw [writeSeq_append,
        show writeSeq [c] (writeSeq l cgaInit) =
          cgaputcC c DEFAULT_CONSOLE_COLOR (writeSeq l cgaInit) from rfl,
        ih hlne (by omega) (fun x hx => hcs x (by simp [hx])),
        cgaputcC_no_scroll c DEFAULT_CONSOLE_COLOR
          ⟨l.map cellOf ++ 1824 :: List.replicate (1999 - l.length) 0, l.length, 0⟩
          hc10 hc256 (by simp only [Cga.pos]; omega)]
      simp only [Cga.crt, Cga.pos, Cga.scrolls]
      rw [set_at_boundary (l.map cellOf) (List.replicate (1999 - l.length) 0)
            l.length 1824 (c % 256 + 256 * (DEFAULT_CONSOLE_COLOR % 256)) (by simp),
          List.append_cons,
          show List.replicate (1999 - l.length) (0 : Nat) =
            0 :: List.replicate (1998 - l.length) 0 by
              rw [show 1999 - l.length = (1998 - l.length) + 1 by omega,
                List.replicate_succ],
          set_at_boundary
            (l.map cellOf ++ [c % 256 + 256 * (DEFAULT_CONSOLE_COLOR % 256)])
            (List.replicate (1998 - l.length) 0) (l.length + 1) 0 1824 (by simp)]
      congr 1
      · rw [List.map_append]
        simp [cellOf]
      · simp

/-- The 1920th stored character: it lands in the last cell of row 23, the
cursor reaches offset 1920 (row 24) and the grid scrolls -- every cell
moves up one row, the cursor returns to the start of row 23, that row is
cleared and the caret drawn at its first cell. -/
theorem cgaputcC_scroll_full (c : Nat) (A : List Nat) (hc10 : c ≠ 10)
    (hc256 : c ≠ BACKSPACE) (hA : A.length = 1919) :
    cgaputcC c DEFAULT_CONSOLE_COLOR ⟨A ++ 1824 :: List.replicate 80 0, 1919, 0⟩ =
      ⟨(A ++ [cellOf c]).drop 80 ++ 1824 ::
        (List.replicate 79 0 ++ List.replicate 80 0), 1840, 1⟩ := by
  have hnotor : ¬ (c = 10 ∨ c = BACKSPACE) := not_or.mpr ⟨hc10, hc256⟩
  simp only [cgaputcC, if_neg hnotor, if_neg hc10, if_neg hc256]
  rw [show COLUMNS = (80 : Nat) from rfl]
  simp only [Nat.reduceAdd, Nat.reduceSub, Nat.reduceMul, Nat.reduceDiv]
  rw [if_pos (le_refl 24)]
  rw [set_at_boundary A (List.replicate 80 0) 1919 1824
        (c % 256 + 256 * (DEFAULT_CONSOLE_COLOR % 256)) hA.symm,
      List.append_cons]
  set M := A ++ [c % 256 + 256 * (DEFAULT_CONSOLE_COLOR % 256)] with hMdef
  have hM : M.length = 1920 := by rw [hMdef]; simp [hA]
  have hM80 : (M.drop 80).length = 1840 := by simp [hM]
  have hM1840 : (M.drop 1840).length = 80 := by simp [hM]
  have e1 : (M ++ List.replicate 80 0).drop 80 = M.drop 80 ++ List.replicate 80 0 := by
    rw [List.drop_append_eq_append_drop, hM]
    norm_num
  have e2 : (M.drop 80 ++ List.replicate 80 0).take 1840 = M.drop 80 := by
    rw [List.take_append_eq_append_take,
        List.take_of_length_le (show (M.drop 80).length ≤ 1840 by omega), hM80]
    norm_num
  have e3 : (M ++ List.replicate 80 0).drop 1840 =
      M.drop 1840 ++ List.replicate 80 0 := by
    rw [List.drop_append_eq_append_drop, hM]
    norm_num
  rw [e1, e2, e3]
  have e4 : (M.drop 80 ++ (M.drop 1840 ++ List.replicate 80 0)).take 1840 =
      M.drop 80 := by
    rw [List.take_append_eq_append_take,
        List.take_of_length_le (show (M.drop 80).length ≤ 1840 by omega), hM80]
    norm_num
  have e5 : (M.drop 80 ++ (M.drop 1840 ++ List.replicate 80 0)).drop 1920 =
      List.replicate 80 0 := by
    rw [List.drop_append_eq_append_drop,
        List.drop_eq_nil_of_le (show (M.drop 80).length ≤ 1920 by omega), hM80]
    norm_num
    rw [List.drop_append_eq_append_drop,
        List.drop_eq_nil_of_le (show (M.drop 1840).length ≤ 80 by omega), hM1840]
    norm_num
  rw [e4, e5, List.append_assoc]
  rw [show List.replicate 80 (0 : Nat) ++ List.replicate 80 0 =
        0 :: (List.replicate 79 0 ++ List.replicate 80 0) from rfl,
      set_at_boundary (M.drop 80) (List.replicate 79 0 ++ List.replicate 80 0)
        1840 0 1824 hM80.symm]
  rw [hMdef]
  simp [cellOf]

/-- Counterexample to CLAIM C2 as stated: writing W*H+1 = 80*25+1 = 2001
printable non-newline characters from the empty screen triggers two
scrolls, not exactly one (the code scrolls as soon as the cursor enters
row 24, so the scroll region is only 24 rows high: the first scroll fires
at character 1920 and the second at character 2000). -/
theorem scroll_count_2001_cex :
    ¬ (writeSeq (List.replicate 2001 97) cgaInit).scrolls = 1 := by
  have hrep : ∀ k : Nat, ∀ c ∈ List.replicate k (97 : Nat), c ≠ 10 ∧ c ≠ BACKSPACE := by
    intro k c hc
    rw [List.eq_of_mem_replicate hc]
    exact ⟨by decide, by decide⟩
  have hsplit : List.replicate 2001 (97 : Nat) =
      (((List.replicate 1919 97 ++ List.replicate 1 97) ++ List.replicate 79 97) ++
        List.replicate 1 97) ++ List.replicate 1 97 := by
    simp only [← List.replicate_add]
  have h1 := writeSeq_no_scroll (List.replicate 1919 97) cgaInit (hrep 1919)
    (by simp [cgaInit])
  have hApos : (writeSeq (List.replicate 1919 97) cgaInit).pos = 1919 := by
    rw [h1.1]; simp [cgaInit]
  have h2 := cgaputcC_scroll_pos 97 DEFAULT_CONSOLE_COLOR
    (writeSeq (List.replicate 1919 97) cgaInit) (by decide) (by decide) hApos
  have h3 := writeSeq_no_scroll (List.replicate 79 97)
    (cgaputcC 97 DEFAULT_CONSOLE_COLOR (writeSeq (List.replicate 1919 97) cgaInit))
    (hrep 79) (by rw [h2.1]; simp)
  have hCpos : (writeSeq (List.replicate 79 97)
      (cgaputcC 97 DEFAULT_CONSOLE_COLOR
        (writeSeq (List.replicate 1919 97) cgaInit))).pos = 1919 := by
    rw [h3.1, h2.1]; simp
  have h4 := cgaputcC_scroll_pos 97 DEFAULT_CONSOLE_COLOR
    (writeSeq (List.replicate 79 97)
      (cgaputcC 97 DEFAULT_CONSOLE_COLOR (writeSeq (List.replicate 1919 97) cgaInit)))
    (by decide) (by decide) hCpos
  have h5 := cgaputcC_no_scroll 97 DEFAULT_CONSOLE_COLOR
    (cgaputcC 97 DEFAULT_CONSOLE_COLOR
      (writeSeq (List.replicate 79 97)
        (cgaputcC 97 DEFAULT_CONSOLE_COLOR (writeSeq (List.replicate 1919 97) cgaInit))))
    (by decide) (by decide) (by rw [h4.1]; omega)
  rw [hsplit, writeSeq_append, writeSeq_append, writeSeq_append, writeSeq_append,
      writeSeq_one, writeSeq_one, writeSeq_one, h5]
  simp only [Cga.scrolls]
  rw [h4.2, h3.2, h2.2, h1.2]
  simp [cgaInit]

/-- CLAIM C2 (amended): the code scrolls as soon as the cursor enters row
24, so the scroll region is the top 24 rows of the 25-row grid and it is
character number 80*24 = 1920 of a printable non-newline run from the
empty screen that triggers its single scroll: the first 1919 characters
cause no scroll, after the 1920th exactly one scroll has happened, and a
1921-character run still ends with exactly one scroll; right after the
scroll the row second from the bottom of the scroll region (row 22) holds
exactly the 80 characters that had just filled the bottom text row, and
that bottom text row (row 23) is cleared, ending blank except for the
caret drawn at its first cell. -/
theorem scroll_once_at_1920 (cs : List Nat) (hlen : cs.length = 1921)
    (hcs : ∀ c ∈ cs, 32 ≤ c ∧ c ≤ 126) :
    (writeSeq (cs.take 1919) cgaInit).scrolls = 0 ∧
    (writeSeq (cs.take 1920) cgaInit).scrolls = 1 ∧
    (writeSeq cs cgaInit).scrolls = 1 ∧
    row 22 (writeSeq (cs.take 1920) cgaInit).crt =
      ((cs.take 1920).drop 1840).map cellOf ∧
    row 23 (writeSeq (cs.take 1920) cgaInit).crt =
      1824 :: List.replicate 79 0 := by
  have htake : ∀ k, k < cs.length →
      cs.take (k + 1) = cs.take k ++ [cs.getD k 0] := by
    intro k hk
    rw [List.getD_eq_getElem cs 0 hk, List.take_succ,
        List.getElem?_eq_getElem hk]
    rfl
  have h19len : (cs.take 1919).length = 1919 := by simp [hlen]
  have h19 := writeSeq_trajectory (cs.take 1919)
    (List.length_pos.mp (by omega)) (by omega)
    (fun x hx => hcs x (List.mem_of_mem_take hx))
  rw [h19len] at h19
  simp only [Nat.reduceSub] at h19
  obtain ⟨hp1, hp2⟩ := hcs (cs.getD 1919 0)
    (by rw [List.getD_eq_getElem cs 0 (by omega)]; exact List.getElem_mem _)
  have hc10a : cs.getD 1919 0 ≠ 10 := by omega
  have hc256a : cs.getD 1919 0 ≠ BACKSPACE := by
    show cs.getD 1919 0 ≠ 256; omega
  have hsplit1 : cs.take 1920 = cs.take 1919 ++ [cs.getD 1919 0] := by
    rw [show (1920 : Nat) = 1919 + 1 from rfl]
    exact htake 1919 (by omega)
  have hM20 : ((cs.take 1920).map cellOf).length = 1920 := by simp [hlen]
  have hS1920 : writeSeq (cs.take 1920) cgaInit =
      ⟨((cs.take 1920).map cellOf).drop 80 ++ 1824 ::
        (List.replicate 79 0 ++ List.replicate 80 0), 1840, 1⟩ := by
    rw [hsplit1, writeSeq_append,
        show writeSeq [cs.getD 1919 0] (writeSeq (cs.take 1919) cgaInit) =
          cgaputcC (cs.getD 1919 0) DEFAULT_CONSOLE_COLOR
            (writeSeq (cs.take 1919) cgaInit) from rfl,
        h19,
        cgaputcC_scroll_full (cs.getD 1919 0) ((cs.take 1919).map cellOf)
          hc10a hc256a (by rw [List.length_map]; exact h19len),
        show [cellOf (cs.getD 1919 0)] =
          List.map cellOf [cs.getD 1919 0] from rfl,
        ← List.map_append]
  refine ⟨?_, ?_, ?_, ?_, ?_⟩
  · rw [h19]
  · rw [hS1920]
  · have hfull : cs = cs.take 1920 ++ [cs.getD 1920 0] := by
      have h1 := htake 1920 (by omega)
      rw [show (1920 : Nat) + 1 = 1921 from rfl,
          List.take_of_length_le (by omega)] at h1
      exact h1
    obtain ⟨hq1, hq2⟩ := hcs (cs.getD 1920 0)
      (by rw [List.getD_eq_getElem cs 0 (by omega)]; exact List.getElem_mem _)
    have hc10b : cs.getD 1920 0 ≠ 10 := by omega
    have hc256b : cs.getD 1920 0 ≠ BACKSPACE := by
      show cs.getD 1920 0 ≠ 256; omega
    rw [hfull, writeSeq_append, hS1920,
        show writeSeq [cs.getD 1920 0]
            (⟨((cs.take 1920).map cellOf).drop 80 ++ 1824 ::
              (List.replicate 79 0 ++ List.replicate 80 0), 1840, 1⟩ : Cga) =
          cgaputcC (cs.getD 1920 0) DEFAULT_CONSOLE_COLOR
            ⟨((cs.take 1920).map cellOf).drop 80 ++ 1824 ::
              (List.replicate 79 0 ++ List.replicate 80 0), 1840, 1⟩ from rfl,
        cgaputcC_no_scroll (cs.getD 1920 0) DEFAULT_CONSOLE_COLOR
          ⟨((cs.take 1920).map cellOf).drop 80 ++ 1824 ::
            (List.replicate 79 0 ++ List.replicate 80 0), 1840, 1⟩
          hc10b hc256b (by show (1840 : Nat) + 1 < 1920; decide)]
  · rw [hS1920]
    show ((((cs.take 1920).map cellOf).drop 80 ++ 1824 ::
        (List.replicate 79 0 ++ List.replicate 80 0)).drop 1760).take 80 =
      ((cs.take 1920).drop 1840).map cellOf
    have hd : (((cs.take 1920).map cellOf).drop 80).length = 1840 := by
      rw [List.length_drop, hM20]
    have hdd : (((cs.take 1920).map cellOf).drop 80).drop 1760 =
        ((cs.take 1920).map cellOf).drop 1840 := by
      rw [List.drop_drop]
    have hlen1840 : (((cs.take 1920).map cellOf).drop 1840).length = 80 := by
      rw [List.length_drop, hM20]
    rw [List.drop_append_eq_append_drop, hd]
    simp only [Nat.reduceSub, List.drop_zero]
    rw [hdd, List.take_append_eq_append_take, hlen1840,
        List.take_of_length_le (le_of_eq hlen1840)]
    simp only [Nat.sub_self, List.take_zero, List.append_nil]
    exact (List.map_drop cellOf (cs.take 1920) 1840).symm
  · rw [hS1920]
    show ((((cs.take 1920).map cellOf).drop 80 ++ 1824 ::
        (List.replicate 79 0 ++ List.replicate 80 0)).drop 1840).take 80 =
      1824 :: List.replicate 79 0
    have hd : (((cs.take 1920).map cellOf).drop 80).length = 1840 := by
      rw [List.length_drop, hM20]
    rw [List.drop_append_eq_append_drop,
        List.drop_eq_nil_of_le (le_of_eq hd), hd]
    simp only [Nat.sub_self, List.drop_zero, List.nil_append]
    rw [show (80 : Nat) = 79 + 1 from rfl, List.take_succ_cons,
        List.take_append_eq_append_take,
        List.take_of_length_le
          (show (List.replicate 79 (0 : Nat)).length ≤ 79 by simp)]
    simp

/-- Witness for the amended C2 theorem at the run of 1921 letters `a`. -/
theorem scroll_once_at_1920_witness :
    (List.replicate 1921 (97 : Nat)).length = 1921 ∧
    (∀ c ∈ List.replicate 1921 (97 : Nat), 32 ≤ c ∧ c ≤ 126) ∧
    ((writeSeq ((List.replicate 1921 (97 : Nat)).take 1919) cgaInit).scrolls = 0 ∧
     (writeSeq ((List.replicate 1921 (97 : Nat)).take 1920) cgaInit).scrolls = 1 ∧
     (writeSeq (List.replicate 1921 (97 : Nat)) cgaInit).scrolls = 1 ∧
     row 22 (writeSeq ((List.replicate 1921 (97 : Nat)).take 1920) cgaInit).crt =
       (((List.replicate 1921 (97 : Nat)).take 1920).drop 1840).map cellOf ∧
     row 23 (writeSeq ((List.replicate 1921 (97 : Nat)).take 1920) cgaInit).crt =
       1824 :: List.replicate 79 0) :=
  ⟨by simp, fun c hc => by rw [List.eq_of_mem_replicate hc]; exact ⟨by decide, by decide⟩,
   scroll_once_at_1920 (List.replicate 1921 97) (by simp)
     (fun c hc => by rw [List.eq_of_mem_replicate hc]; exact ⟨by decide, by decide⟩)⟩

/-- Counterexample to CLAIM C4 as stated: the backspace keystroke (an
operation of the driver that is not the EOF un-consume case of
`consoleread`) decreases the edit index `e`. -/
theorem index_decrease_cex :
    (run (.intr [8]) (run (.intr [97]) sys0)).input.e <
      (run (.intr [97]) sys0).input.e := by decide

/-- A `consputc` call that does not observe the panic flag sends the
character to the serial sink and the framebuffer and returns. -/
theorem consputcC_ok (c color : Nat) (s : Sys) (h : s.panicked = false) :
    consputcC c color s =
      .ok { s with serial := s.serial ++ serialOf c, cga := cgaputcC c color s.cga } := by
  simp [consputcC, h]

/-- A `consputc` call that observes the panic flag disables interrupts on
its core and spins forever, leaving everything else untouched. -/
theorem consputcC_spin (c color : Nat) (s : Sys) (h : s.panicked = true) :
    consputcC c color s = .error { s with intsOn := false } := by
  simp [consputcC, h]

/-- When the panic flag is down, the kill-line loop always returns. -/
theorem killLoopS_ok (fuel : Nat) : ∀ s : Sys, s.panicked = false →
    killLoopS fuel s = .ok (stateOfE (killLoopS fuel s)) := by
  induction fuel with
  | zero => intro s _; rfl
  | succ f ih =>
    intro s h
    rw [killLoopS]
    by_cases hg : s.input.e ≠ s.input.w ∧
        s.input.buf ((s.input.e - 1) % INPUT_BUF) ≠ 10
    · rw [if_pos hg,
          consputcC_ok BACKSPACE DEFAULT_CONSOLE_COLOR
            { s with input := { s.input with e := s.input.e - 1 } } h]
      exact ih { { s with input := { s.input with e := s.input.e - 1 } } with
          serial := s.serial ++ serialOf BACKSPACE,
          cga := cgaputcC BACKSPACE DEFAULT_CONSOLE_COLOR s.cga } h
    · rw [if_neg hg]; rfl

/-- What the kill-line loop does to the observable state, whether or not
it hangs in the panic spin: `r`, `w`, the stored bytes and the panic flag
are untouched, and `e` only moves down, never past `w`. -/
theorem killLoopS_state (fuel : Nat) : ∀ s : Sys,
    s.input.w ≤ s.input.e →
    (stateOfE (killLoopS fuel s)).panicked = s.panicked ∧
    (stateOfE (killLoopS fuel s)).input.r = s.input.r ∧
    (stateOfE (killLoopS fuel s)).input.w = s.input.w ∧
    s.input.w ≤ (stateOfE (killLoopS fuel s)).input.e ∧
    (stateOfE (killLoopS fuel s)).input.e ≤ s.input.e ∧
    (stateOfE (killLoopS fuel s)).input.buf = s.input.buf := by
  induction fuel with
  | zero => intro s h; exact ⟨rfl, rfl, rfl, h, le_refl _, rfl⟩
  | succ f ih =>
    intro s h
    rw [killLoopS]
    by_cases hg : s.input.e ≠ s.input.w ∧
        s.input.buf ((s.input.e - 1) % INPUT_BUF) ≠ 10
    · rw [if_pos hg]
      have hwe1 : s.input.w ≤ s.input.e - 1 := by
        have := hg.1; omega
      by_cases hpk : s.panicked = true
      · rw [consputcC_spin BACKSPACE DEFAULT_CONSOLE_COLOR
              { s with input := { s.input with e := s.input.e - 1 } } hpk]
        exact ⟨rfl, rfl, rfl, hwe1, Nat.sub_le _ _, rfl⟩
      · have hpk' : s.panicked = false := by simpa using hpk
        rw [consputcC_ok BACKSPACE DEFAULT_CONSOLE_COLOR
              { s with input := { s.input with e := s.input.e - 1 } } hpk']
        obtain ⟨q1, q2, q3, q4, q5, q6⟩ :=
          ih { { s with input := { s.input with e := s.input.e - 1 } } with
              serial := s.serial ++ serialOf BACKSPACE,
              cga := cgaputcC BACKSPACE DEFAULT_CONSOLE_COLOR s.cga } hwe1
        refine ⟨q1, q2, q3, q4, le_trans q5 (Nat.sub_le _ _), q6⟩
    · rw [if_neg hg]
      exact ⟨rfl, rfl, rfl, h, le_refl _, rfl⟩

/-- The kill-line loop never touches the panic flag. -/
theorem killLoopS_panicked (fuel : Nat) : ∀ s : Sys,
    (stateOfE (killLoopS fuel s)).panicked = s.panicked := by
  induction fuel with
  | zero => intro s; rfl
  | succ f ih =>
    intro s
    rw [killLoopS]
    by_cases hg : s.input.e ≠ s.input.w ∧
        s.input.buf ((s.input.e - 1) % INPUT_BUF) ≠ 10
    · rw [if_pos hg]
      by_cases hpk : s.panicked = true
      · rw [consputcC_spin BACKSPACE DEFAULT_CONSOLE_COLOR
              { s with input := { s.input with e := s.input.e - 1 } } hpk]
        rfl
      · have hpk' : s.panicked = false := by simpa using hpk
        rw [consputcC_ok BACKSPACE DEFAULT_CONSOLE_COLOR
              { s with input := { s.input with e := s.input.e - 1 } } hpk']
        exact ih { { s with input := { s.input with e := s.input.e - 1 } } with
            serial := s.serial ++ serialOf BACKSPACE,
            cga := cgaputcC BACKSPACE DEFAULT_CONSOLE_COLOR s.cga }
    · rw [if_neg hg]
      rfl

/-- What the read loop does to the buffer between entry and its exit or
sleep: `w`, `e` and the stored bytes are untouched, the read index never
moves below its entry value, and it never overtakes `w`. -/
theorem readLoop_state (k : Bool) (t : Nat) : ∀ (n : Nat) (acc : List Nat) (s : Input),
    (rresState (readLoop k t n acc s)).w = s.w ∧
    (rresState (readLoop k t n acc s)).e = s.e ∧
    (rresState (readLoop k t n acc s)).buf = s.buf ∧
    s.r ≤ (rresState (readLoop k t n acc s)).r ∧
    (s.r ≤ s.w → (rresState (readLoop k t n acc s)).r ≤ s.w) := by
  intro n
  induction n with
  | zero => intro acc s; exact ⟨rfl, rfl, rfl, le_refl _, fun h => h⟩
  | succ n ih =>
    intro acc s
    rw [readLoop]
    by_cases hrw : s.r = s.w
    · rw [if_pos hrw]
      by_cases hk : k = true
      · rw [if_pos hk]; exact ⟨rfl, rfl, rfl, le_refl _, fun h => h⟩
      · rw [if_neg hk]; exact ⟨rfl, rfl, rfl, le_refl _, fun h => h⟩
    · rw [if_neg hrw]
      simp only []
      by_cases hc4 : s.buf (s.r % INPUT_BUF) = 4
      · rw [if_pos hc4]
        by_cases hnt : n + 1 < t
        · rw [if_pos hnt]
          exact ⟨rfl, rfl, rfl, by show s.r ≤ s.r + 1 - 1; omega,
            fun h => by show s.r + 1 - 1 ≤ s.w; omega⟩
        · rw [if_neg hnt]
          exact ⟨rfl, rfl, rfl, by show s.r ≤ s.r + 1; omega,
            fun h => by show s.r + 1 ≤ s.w; omega⟩
      · rw [if_neg hc4]
        by_cases hc10 : s.buf (s.r % INPUT_BUF) = 10
        · rw [if_pos hc10]
          exact ⟨rfl, rfl, rfl, by show s.r ≤ s.r + 1; omega,
            fun h => by show s.r + 1 ≤ s.w; omega⟩
        · rw [if_neg hc10]
          obtain ⟨q1, q2, q3, q4, q5⟩ :=
            ih (acc ++ [s.buf (s.r % INPUT_BUF)]) { s with r := s.r + 1 }
          have q4' : s.r + 1 ≤
              (rresState (readLoop k t n (acc ++ [s.buf (s.r % INPUT_BUF)])
                { s with r := s.r + 1 })).r := q4
          have q5' : s.r + 1 ≤ s.w →
              (rresState (readLoop k t n (acc ++ [s.buf (s.r % INPUT_BUF)])
                { s with r := s.r + 1 })).r ≤ s.w := q5
          exact ⟨q1, q2, q3, by omega, fun h => q5' (by omega)⟩

/-- What one `consoleintr` dispatch does to the input buffer: the panic
flag is never touched; under the buffer invariant, `r` is never touched,
`w` never decreases, the invariant is preserved, and `e` can only decrease
through the backspace (8, 127) and kill-line (21) edits. -/
theorem sysIntr1_state (c : Nat) (s : Sys) :
    (stateOfE (sysIntr1 c s)).panicked = s.panicked ∧
    (InputInv s.input →
      (stateOfE (sysIntr1 c s)).input.r = s.input.r ∧
      s.input.w ≤ (stateOfE (sysIntr1 c s)).input.w ∧
      InputInv (stateOfE (sysIntr1 c s)).input ∧
      (c ≠ 8 → c ≠ 127 → c ≠ 21 → s.input.e ≤ (stateOfE (sysIntr1 c s)).input.e)) := by
  by_cases h26 : c = 26
  · subst h26
    exact ⟨rfl, fun hI => ⟨rfl, le_refl _, hI, fun _ _ _ => le_refl _⟩⟩
  by_cases h16 : c = 16
  · subst h16
    exact ⟨rfl, fun hI => ⟨rfl, le_refl _, hI, fun _ _ _ => le_refl _⟩⟩
  by_cases h21 : c = 21
  · subst h21
    have he : sysIntr1 21 s = killLoopS (s.input.e - s.input.w) s := rfl
    rw [he]
    refine ⟨killLoopS_panicked _ s, fun hI => ?_⟩
    obtain ⟨q1, q2, q3, q4, q5, _⟩ :=
      killLoopS_state (s.input.e - s.input.w) s hI.2.1
    obtain ⟨hi1, hi2, hi3⟩ := hI
    have hi3' : s.input.e - s.input.r ≤ 128 := hi3
    refine ⟨q2, le_of_eq q3.symm, ⟨?_, ?_, ?_⟩, fun _ _ h => absurd rfl h⟩
    · rw [q2, q3]; exact hi1
    · rw [q3]; exact q4
    · show (stateOfE (killLoopS (s.input.e - s.input.w) s)).input.e -
        (stateOfE (killLoopS (s.input.e - s.input.w) s)).input.r ≤ 128
      omega
  by_cases h8 : c = 8 ∨ c = 127
  · have hvac : ∀ x : Nat, c ≠ 8 → c ≠ 127 → c ≠ 21 → x ≤ x :=
      fun _ hc8 hc127 _ => absurd h8 (not_or.mpr ⟨hc8, hc127⟩)
    simp only [sysIntr1, if_neg h26, if_neg h16, if_neg h21, if_pos h8]
    by_cases hew : s.input.e ≠ s.input.w
    · rw [if_pos hew]
      by_cases hpk : s.panicked = true
      · rw [consputcC_spin BACKSPACE DEFAULT_CONSOLE_COLOR
              { s with input := { s.input with e := s.input.e - 1 } } hpk]
        refine ⟨rfl, fun hI => ?_⟩
        obtain ⟨hi1, hi2, hi3⟩ := hI
        have hi3' : s.input.e - s.input.r ≤ 128 := hi3
        refine ⟨rfl, le_refl _, ⟨hi1, ?_, ?_⟩,
          fun hc8 hc127 _ => absurd h8 (not_or.mpr ⟨hc8, hc127⟩)⟩
        · show s.input.w ≤ s.input.e - 1
          omega
        · show s.input.e - 1 - s.input.r ≤ INPUT_BUF
          show s.input.e - 1 - s.input.r ≤ 128
          omega
      · have hpk' : s.panicked = false := by simpa using hpk
        rw [consputcC_ok BACKSPACE DEFAULT_CONSOLE_COLOR
              { s with input := { s.input with e := s.input.e - 1 } } hpk']
        refine ⟨rfl, fun hI => ?_⟩
        obtain ⟨hi1, hi2, hi3⟩ := hI
        have hi3' : s.input.e - s.input.r ≤ 128 := hi3
        refine ⟨rfl, le_refl _, ⟨hi1, ?_, ?_⟩,
          fun hc8 hc127 _ => absurd h8 (not_or.mpr ⟨hc8, hc127⟩)⟩
        · show s.input.w ≤ s.input.e - 1
          omega
        · show s.input.e - 1 - s.input.r ≤ 128
          omega
    · rw [if_neg hew]
      exact ⟨rfl, fun hI => ⟨rfl, le_refl _, hI,
        fun hc8 hc127 _ => absurd h8 (not_or.mpr ⟨hc8, hc127⟩)⟩⟩
  · simp only [sysIntr1, if_neg h26, if_neg h16, if_neg h21, if_neg h8]
    by_cases hd : c ≠ 0 ∧ s.input.e - s.input.r < INPUT_BUF
    · rw [if_pos hd]
      have hd2 : s.input.e - s.input.r < 128 := hd.2
      by_cases hc13 : c = 13
      · subst hc13
        simp only [if_true]
        by_cases hpk : s.panicked = true
        · rw [consputcC_spin 10 DEFAULT_CONSOLE_COLOR
                { s with input := { s.input with
                  buf := fun i => if i = s.input.e % INPUT_BUF
                    then 10 % 256 else s.input.buf i,
                  e := s.input.e + 1 } } hpk]
          refine ⟨rfl, fun hI => ?_⟩
          obtain ⟨hi1, hi2, hi3⟩ := hI
          refine ⟨rfl, le_refl _, ⟨hi1, ?_, ?_⟩, fun _ _ _ => ?_⟩
          · show s.input.w ≤ s.input.e + 1
            omega
          · show s.input.e + 1 - s.input.r ≤ 128
            omega
          · show s.input.e ≤ s.input.e + 1
            omega
        · have hpk' : s.panicked = false := by simpa using hpk
          rw [consputcC_ok 10 DEFAULT_CONSOLE_COLOR
                { s with input := { s.input with
                  buf := fun i => if i = s.input.e % INPUT_BUF
                    then 10 % 256 else s.input.buf i,
                  e := s.input.e + 1 } } hpk']
          simp only []
          rw [if_pos (Or.inl trivial)]
          refine ⟨rfl, fun hI => ?_⟩
          obtain ⟨hi1, hi2, hi3⟩ := hI
          refine ⟨rfl, ?_, ⟨?_, ?_, ?_⟩, fun _ _ _ => ?_⟩
          · show s.input.w ≤ s.input.e + 1
            omega
          · show s.input.r ≤ s.input.e + 1
            omega
          · show s.input.e + 1 ≤ s.input.e + 1
            omega
          · show s.input.e + 1 - s.input.r ≤ 128
            omega
          · show s.input.e ≤ s.input.e + 1
            omega
      · simp only [if_neg hc13]
        by_cases hpk : s.panicked = true
        · rw [consputcC_spin c DEFAULT_CONSOLE_COLOR
                { s with input := { s.input with
                  buf := fun i => if i = s.input.e % INPUT_BUF
                    then c % 256 else s.input.buf i,
                  e := s.input.e + 1 } } hpk]
          refine ⟨rfl, fun hI => ?_⟩
          obtain ⟨hi1, hi2, hi3⟩ := hI
          refine ⟨rfl, le_refl _, ⟨hi1, ?_, ?_⟩, fun _ _ _ => ?_⟩
          · show s.input.w ≤ s.input.e + 1
            omega
          · show s.input.e + 1 - s.input.r ≤ 128
            omega
          · show s.input.e ≤ s.input.e + 1
            omega
        · have hpk' : s.panicked = false := by simpa using hpk
          rw [consputcC_ok c DEFAULT_CONSOLE_COLOR
                { s with input := { s.input with
                  buf := fun i => if i = s.input.e % INPUT_BUF
                    then c % 256 else s.input.buf i,
                  e := s.input.e + 1 } } hpk']
          simp only []
          split
          · refine ⟨rfl, fun hI => ?_⟩
            obtain ⟨hi1, hi2, hi3⟩ := hI
            refine ⟨rfl, ?_, ⟨?_, ?_, ?_⟩, fun _ _ _ => ?_⟩
            · show s.input.w ≤ s.input.e + 1
              omega
            · show s.input.r ≤ s.input.e + 1
              omega
            · show s.input.e + 1 ≤ s.input.e + 1
              omega
            · show s.input.e + 1 - s.input.r ≤ 128
              omega
            · show s.input.e ≤ s.input.e + 1
              omega
          · refine ⟨rfl, fun hI => ?_⟩
            obtain ⟨hi1, hi2, hi3⟩ := hI
            refine ⟨rfl, le_refl _, ⟨hi1, ?_, ?_⟩, fun _ _ _ => ?_⟩
            · show s.input.w ≤ s.input.e + 1
              omega
            · show s.input.e + 1 - s.input.r ≤ 128
              omega
            · show s.input.e ≤ s.input.e + 1
              omega
    · rw [if_neg hd]
      exact ⟨rfl, fun hI => ⟨rfl, le_refl _, hI, fun _ _ _ => le_refl _⟩⟩

/-- Extending `sysIntr1_state` over a whole interrupt batch: the panic
flag is untouched, and under the buffer invariant `r` stays, `w` only
grows, the invariant is preserved, and `e` only grows when the batch holds
no backspace or kill-line code. -/
theorem sysIntrList_state (cs : List Nat) : ∀ s : Sys,
    (stateOfE (sysIntrList cs s)).panicked = s.panicked ∧
    (InputInv s.input →
      (stateOfE (sysIntrList cs s)).input.r = s.input.r ∧
      s.input.w ≤ (stateOfE (sysIntrList cs s)).input.w ∧
      InputInv (stateOfE (sysIntrList cs s)).input ∧
      ((∀ c ∈ cs, c ≠ 8 ∧ c ≠ 127 ∧ c ≠ 21) →
        s.input.e ≤ (stateOfE (sysIntrList cs s)).input.e)) := by
  induction cs with
  | nil => intro s; exact ⟨rfl, fun hI => ⟨rfl, le_refl _, hI, fun _ => le_refl _⟩⟩
  | cons c rest ih =>
    intro s
    have h1 := sysIntr1_state c s
    simp only [sysIntrList]
    cases he : sysIntr1 c s with
    | ok s1 =>
      rw [he] at h1
      simp only [stateOfE] at h1
      obtain ⟨ihp, ihrest⟩ := ih s1
      refine ⟨ihp.trans h1.1, fun hI => ?_⟩
      obtain ⟨a1, a2, a3, a4⟩ := h1.2 hI
      obtain ⟨b1, b2, b3, b4⟩ := ihrest a3
      refine ⟨b1.trans a1, le_trans a2 b2, b3, fun hcs => ?_⟩
      obtain ⟨hc8, hc127, hc21⟩ := hcs c (by simp)
      exact le_trans (a4 hc8 hc127 hc21) (b4 (fun x hx => hcs x (by simp [hx])))
    | error s1 =>
      rw [he] at h1
      simp only [stateOfE] at h1
      refine ⟨h1.1, fun hI => ?_⟩
      obtain ⟨a1, a2, a3, a4⟩ := h1.2 hI
      refine ⟨a1, a2, a3, fun hcs => ?_⟩
      obtain ⟨hc8, hc127, hc21⟩ := hcs c (by simp)
      exact a4 hc8 hc127 hc21

/-- The output loop shared by `consolewrite` and `cprintf` never touches
the input buffer or the panic flag, spin or no spin. -/
theorem foldPutc_state (cs : List Nat) (color : Nat) : ∀ s : Sys,
    (stateOfE (foldPutc cs color s)).input = s.input ∧
    (stateOfE (foldPutc cs color s)).panicked = s.panicked := by
  induction cs with
  | nil => intro s; exact ⟨rfl, rfl⟩
  | cons c rest ih =>
    intro s
    simp only [foldPutc]
    by_cases hpk : s.panicked = true
    · rw [consputcC_spin c color s hpk]
      exact ⟨rfl, rfl⟩
    · have hpk' : s.panicked = false := by simpa using hpk
      rw [consputcC_ok c color s hpk']
      exact ih { s with serial := s.serial ++ serialOf c, cga := cgaputcC c color s.cga }

/-- Function `panic` never touches the input buffer, and never lowers a
raised panic flag (its own flag-raise happens only when its diagnostics
finished; a second core that panics while the flag is already up hangs in
the spin with the flag still up). -/
theorem sysPanic_state (cpuid : Nat) (msg pcs : List Nat) (s : Sys) :
    (sysPanic cpuid msg pcs s).input = s.input ∧
    (s.panicked = true → (sysPanic cpuid msg pcs s).panicked = true) := by
  have h := foldPutc_state
    (cprintfOut panicBanner [.int (cpuid : Int)] ++ cprintfOut msg [] ++
     cprintfOut panicStackHdr [] ++ panicPcsOut 0 pcs ++ cprintfOut panicHlt [])
    DEFAULT_CONSOLE_COLOR { s with intsOn := false, locking := false }
  simp only [sysPanic]
  cases hf : foldPutc
      (cprintfOut panicBanner [.int (cpuid : Int)] ++ cprintfOut msg [] ++
       cprintfOut panicStackHdr [] ++ panicPcsOut 0 pcs ++ cprintfOut panicHlt [])
      DEFAULT_CONSOLE_COLOR { s with intsOn := false, locking := false } with
  | ok s2 =>
    rw [hf] at h
    simp only [stateOfE] at h
    exact ⟨h.1, fun _ => rfl⟩
  | error s2 =>
    rw [hf] at h
    simp only [stateOfE] at h
    exact ⟨h.1, fun hp => h.2.trans hp⟩

/-- One `consputc` call never touches the input buffer or the panic flag,
spin or no spin. -/
theorem consputcC_state (c color : Nat) (s : Sys) :
    (stateOfE (consputcC c color s)).input = s.input ∧
    (stateOfE (consputcC c color s)).panicked = s.panicked := by
  by_cases hpk : s.panicked = true
  · rw [consputcC_spin c color s hpk]; exact ⟨rfl, rfl⟩
  · rw [consputcC_ok c color s (by simpa using hpk)]; exact ⟨rfl, rfl⟩

/-- CLAIM C3: every state reachable from boot through the driver's
operations (interrupt batches, reads and their resumptions after a sleep,
writes, `cprintf`, `panic`) satisfies the input-buffer invariant
`r ≤ w ≤ e` and `e - r ≤ 128`; since every step leads from a reachable
state to a reachable state, the invariant holds before and after each
operation. -/
theorem input_invariant_reachable (s : Sys) (h : Reach s) : InputInv s.input := by
  induction h with
  | init => exact ⟨le_refl _, le_refl _, by decide⟩
  | @step op s h ih =>
    cases op with
    | intr cs => exact ((sysIntrList_state cs s).2 ih).2.2.1
    | read killed n =>
      obtain ⟨q1, q2, q3, q4, q5⟩ := readLoop_state killed n n [] s.input
      obtain ⟨i1, i2, i3⟩ := ih
      have i3' : s.input.e - s.input.r ≤ 128 := i3
      show InputInv (rresState (readLoop killed n n [] s.input))
      refine ⟨?_, ?_, ?_⟩
      · rw [q1]; exact q5 i1
      · rw [q1, q2]; exact i2
      · rw [q2]
        show s.input.e - (rresState (readLoop killed n n [] s.input)).r ≤ 128
        omega
    | write bs =>
      show InputInv (stateOfE (foldPutc (bs.map (fun b => b % 256))
        DEFAULT_CONSOLE_COLOR s)).input
      rw [(foldPutc_state (bs.map (fun b => b % 256)) DEFAULT_CONSOLE_COLOR s).1]
      exact ih
    | putc c color =>
      show InputInv (stateOfE (consputcC c color s)).input
      rw [(consputcC_state c color s).1]
      exact ih
    | printf fmt args =>
      show InputInv (stateOfE (foldPutc (cprintfOut fmt args)
        DEFAULT_CONSOLE_COLOR s)).input
      rw [(foldPutc_state (cprintfOut fmt args) DEFAULT_CONSOLE_COLOR s).1]
      exact ih
    | panicOp cpuid msg pcs =>
      show InputInv (sysPanic cpuid msg pcs s).input
      rw [(sysPanic_state cpuid msg pcs s).1]
      exact ih
  | @resume killed t n acc s h ih =>
    obtain ⟨q1, q2, q3, q4, q5⟩ := readLoop_state killed t n acc s.input
    obtain ⟨i1, i2, i3⟩ := ih
    have i3' : s.input.e - s.input.r ≤ 128 := i3
    show InputInv (rresState (readLoop killed t n acc s.input))
    refine ⟨?_, ?_, ?_⟩
    · rw [q1]; exact q5 i1
    · rw [q1, q2]; exact i2
    · rw [q2]
      show s.input.e - (rresState (readLoop killed t n acc s.input)).r ≤ 128
      omega

/-- Witness for `input_invariant_reachable` at the boot state. -/
theorem input_invariant_reachable_witness : InputInv sys0.input :=
  input_invariant_reachable sys0 Reach.init

/-- CLAIM C4 (amended): across every driver operation the indices `r` and
`w` never decrease; `e` never decreases except through the two erase edits
of `consoleintr` (backspace 8/0x7f and kill-line 21); and inside
`consoleread` the EOF un-consume only undoes the increment performed in
the same iteration, so even a resumed read loop never leaves `r` below its
entry value. -/
theorem index_monotonicity (op : Op) (s : Sys) (hInv : InputInv s.input) :
    s.input.r ≤ (run op s).input.r ∧
    s.input.w ≤ (run op s).input.w ∧
    (editFree op → s.input.e ≤ (run op s).input.e) ∧
    (∀ killed t n acc,
      s.input.r ≤ (rresState (readLoop killed t n acc s.input)).r) := by
  have hread : ∀ killed t n acc,
      s.input.r ≤ (rresState (readLoop killed t n acc s.input)).r :=
    fun killed t n acc => (readLoop_state killed t n acc s.input).2.2.2.1
  cases op with
  | intr cs =>
    obtain ⟨a1, a2, _, a4⟩ := (sysIntrList_state cs s).2 hInv
    exact ⟨le_of_eq a1.symm, a2, fun hef => a4 hef, hread⟩
  | read killed n =>
    obtain ⟨q1, q2, _, q4, _⟩ := readLoop_state killed n n [] s.input
    exact ⟨q4, le_of_eq q1.symm, fun _ => le_of_eq q2.symm, hread⟩
  | write bs =>
    have h := (foldPutc_state (bs.map (fun b => b % 256)) DEFAULT_CONSOLE_COLOR s).1
    exact ⟨le_of_eq (congrArg Input.r h).symm, le_of_eq (congrArg Input.w h).symm,
      fun _ => le_of_eq (congrArg Input.e h).symm, hread⟩
  | putc c color =>
    have h := (consputcC_state c color s).1
    exact ⟨le_of_eq (congrArg Input.r h).symm, le_of_eq (congrArg Input.w h).symm,
      fun _ => le_of_eq (congrArg Input.e h).symm, hread⟩
  | printf fmt args =>
    have h := (foldPutc_state (cprintfOut fmt args) DEFAULT_CONSOLE_COLOR s).1
    exact ⟨le_of_eq (congrArg Input.r h).symm, le_of_eq (congrArg Input.w h).symm,
      fun _ => le_of_eq (congrArg Input.e h).symm, hread⟩
  | panicOp cpuid msg pcs =>
    have h := (sysPanic_state cpuid msg pcs s).1
    exact ⟨le_of_eq (congrArg Input.r h).symm, le_of_eq (congrArg Input.w h).symm,
      fun _ => le_of_eq (congrArg Input.e h).symm, hread⟩

/-- Witness for `index_monotonicity` at a concrete input. -/
theorem index_monotonicity_witness :
    sys0.input.r ≤ (run (.intr [97]) sys0).input.r ∧
    sys0.input.w ≤ (run (.intr [97]) sys0).input.w ∧
    sys0.input.r ≤ (rresState (readLoop false 3 3 [] sys0.input)).r :=
  ⟨(index_monotonicity (.intr [97]) sys0 ⟨le_refl _, le_refl _, by decide⟩).1,
   (index_monotonicity (.intr [97]) sys0 ⟨le_refl _, le_refl _, by decide⟩).2.1,
   (index_monotonicity (.intr [97]) sys0 ⟨le_refl _, le_refl _, by decide⟩).2.2.2
     false 3 3 []⟩

/-- CLAIM C8: a `consputc` call that finds the panic flag raised disables
interrupts on its core and spins forever, leaving the serial sink, the
framebuffer and all other state untouched (the `.error` payload differs
from the entry state only in `intsOn`); and no driver operation ever takes
the flag from Panicked back to Normal. -/
theorem panicked_flag_terminal :
    (∀ c color s, s.panicked = true →
      consputcC c color s = .error { s with intsOn := false }) ∧
    (∀ op s, s.panicked = true → (run op s).panicked = true) := by
  refine ⟨fun c color s h => consputcC_spin c color s h, fun op s hp => ?_⟩
  cases op with
  | intr cs => exact (sysIntrList_state cs s).1.trans hp
  | read killed n => exact hp
  | write bs =>
    exact ((foldPutc_state (bs.map (fun b => b % 256))
      DEFAULT_CONSOLE_COLOR s).2).trans hp
  | putc c color => exact ((consputcC_state c color s).2).trans hp
  | printf fmt args =>
    exact ((foldPutc_state (cprintfOut fmt args) DEFAULT_CONSOLE_COLOR s).2).trans hp
  | panicOp cpuid msg pcs => exact (sysPanic_state cpuid msg pcs s).2 hp

/-- Witness for `panicked_flag_terminal` at a concrete input. -/
theorem panicked_flag_terminal_witness :
    consputcC 65 7 { sys0 with panicked := true } =
      .error { { sys0 with panicked := true } with intsOn := false } ∧
    (run (.putc 66 7) { sys0 with panicked := true }).panicked = true :=
  ⟨panicked_flag_terminal.1 65 7 { sys0 with panicked := true } rfl,
   panicked_flag_terminal.2 (.putc 66 7) { sys0 with panicked := true } rfl⟩

/-- A character that is not a newline, a carriage return or the EOF mark,
fed into a state with no committed or pending data beyond at most 126
stored bytes, never commits: `r`, `w` stay put, `e` grows by at most one,
and the call returns (the panic flag being down). -/
theorem sysIntr1_no_commit (c : Nat) (s : Sys)
    (hc10 : c ≠ 10) (hc13 : c ≠ 13) (hc4 : c ≠ 4)
    (hp : s.panicked = false) (hrw : s.input.r = s.input.w)
    (hwe : s.input.w ≤ s.input.e) (hroom : s.input.e - s.input.r ≤ 126) :
    ∃ s1, sysIntr1 c s = .ok s1 ∧ s1.panicked = false ∧
      s1.input.r = s.input.r ∧ s1.input.w = s.input.w ∧
      s1.input.w ≤ s1.input.e ∧ s1.input.e ≤ s.input.e + 1 := by
  by_cases h26 : c = 26
  · exact ⟨s, by simp [sysIntr1, h26], hp, rfl, rfl, hwe, by omega⟩
  by_cases h16 : c = 16
  · exact ⟨s, by simp [sysIntr1, h16, h26], hp, rfl, rfl, hwe, by omega⟩
  by_cases h21 : c = 21
  · subst h21
    have he : sysIntr1 21 s = killLoopS (s.input.e - s.input.w) s := by
      simp [sysIntr1]
    obtain ⟨q1, q2, q3, q4, q5, _⟩ := killLoopS_state (s.input.e - s.input.w) s hwe
    refine ⟨stateOfE (killLoopS (s.input.e - s.input.w) s),
      by rw [he]; exact killLoopS_ok _ s hp, q1.trans hp, q2, q3, ?_, by omega⟩
    rw [q3]; exact q4
  by_cases h8 : c = 8 ∨ c = 127
  · simp only [sysIntr1, if_neg h26, if_neg h16, if_neg h21, if_pos h8]
    by_cases hew : s.input.e ≠ s.input.w
    · rw [if_pos hew,
          consputcC_ok BACKSPACE DEFAULT_CONSOLE_COLOR
            { s with input := { s.input with e := s.input.e - 1 } } hp]
      exact ⟨_, rfl, hp, rfl, rfl, by simp; omega, by simp; omega⟩
    · rw [if_neg hew]
      exact ⟨s, rfl, hp, rfl, rfl, hwe, by omega⟩
  · simp only [sysIntr1, if_neg h26, if_neg h16, if_neg h21, if_neg h8]
    by_cases hd : c ≠ 0 ∧ s.input.e - s.input.r < INPUT_BUF
    · rw [if_pos hd]
      simp only [if_neg hc13]
      rw [consputcC_ok c DEFAULT_CONSOLE_COLOR
            { s with input :=
              { s.input with
                buf := fun i => if i = s.input.e % INPUT_BUF then c % 256 else s.input.buf i,
                e := s.input.e + 1 } } hp]
      have hcommit : ¬ (c = 10 ∨ c = 4 ∨ s.input.e + 1 = s.input.r + INPUT_BUF) := by
        simp only [INPUT_BUF]
        push_neg
        exact ⟨hc10, hc4, by omega⟩
      refine ⟨{ s with
          input := { s.input with
            buf := fun i => if i = s.input.e % INPUT_BUF then c % 256 else s.input.buf i,
            e := s.input.e + 1 },
          serial := s.serial ++ serialOf c,
          cga := cgaputcC c DEFAULT_CONSOLE_COLOR s.cga }, ?_, hp, rfl, rfl, ?_, ?_⟩
      · simp only []
        rw [if_neg]
        exact hcommit
      · show s.input.w ≤ s.input.e + 1
        omega
      · show s.input.e + 1 ≤ s.input.e + 1
        exact le_refl _
    · rw [if_neg hd]
      exact ⟨s, rfl, hp, rfl, rfl, hwe, by omega⟩

/-- Feeding a terminator-free batch into `consoleintr` from a state with
`r = w ≤ e` and enough room never commits: `r` and `w` are untouched. -/
theorem sysIntrList_no_commit (cs : List Nat) : ∀ s : Sys,
    (∀ c ∈ cs, c ≠ 10 ∧ c ≠ 13 ∧ c ≠ 4) →
    s.panicked = false → s.input.r = s.input.w → s.input.w ≤ s.input.e →
    s.input.e - s.input.r + cs.length ≤ 127 →
    ∃ s1, sysIntrList cs s = .ok s1 ∧ s1.panicked = false ∧
      s1.input.r = s.input.r ∧ s1.input.w = s.input.w ∧
      s1.input.w ≤ s1.input.e ∧
      s1.input.e - s1.input.r ≤ s.input.e - s.input.r + cs.length := by
  induction cs with
  | nil =>
    intro s _ hp hrw hwe _
    exact ⟨s, rfl, hp, rfl, rfl, hwe, by omega⟩
  | cons c rest ih =>
    intro s hcs hp hrw hwe hroom
    obtain ⟨hc10, hc13, hc4⟩ := hcs c (by simp)
    obtain ⟨s1, he1, hp1, hr1, hw1, hwe1, hbound1⟩ :=
      sysIntr1_no_commit c s hc10 hc13 hc4 hp hrw hwe
        (by simp at hroom; omega)
    obtain ⟨s2, he2, hp2, hr2, hw2, hwe2, hbound2⟩ :=
      ih s1 (fun x hx => hcs x (by simp [hx])) hp1 (by rw [hr1, hw1, hrw]) hwe1
        (by simp at hroom; omega)
    refine ⟨s2, ?_, hp2, by rw [hr2, hr1], by rw [hw2, hw1], hwe2, ?_⟩
    · show sysIntrList (c :: rest) s = .ok s2
      show (match sysIntr1 c s with
        | .ok s1 => sysIntrList rest s1
        | .error s1 => .error s1) = .ok s2
      rw [he1]
      exact he2
    · simp at hroom ⊢
      omega

/-- Counterexample to CLAIM C6 as stated: the carriage-return character 13
is neither the newline 10 nor the EOF marker 4, yet feeding just it to
`consoleintr` commits (it is translated to newline), so readers do observe
available data: `r ≠ w` afterwards. -/
theorem cr_commits_cex :
    ¬ (stateOfE (sysIntrList [13] sys0)).input.r =
        (stateOfE (sysIntrList [13] sys0)).input.w := by decide

/-- CLAIM C6 (amended): feeding `consoleintr`, from a state with no
committed or uncommitted pending data (`r = w = e`), any batch shorter
than the capacity 128 that contains no newline, no carriage return (which
the code translates into newline) and no EOF marker leaves `r = w`:
readers observe no available data until a terminator is fed. -/
theorem no_terminator_no_committed_data (cs : List Nat) (s : Sys)
    (hp : s.panicked = false) (hrw : s.input.r = s.input.w)
    (hwe : s.input.w = s.input.e) (hlen : cs.length < 128)
    (hcs : ∀ c ∈ cs, c ≠ 10 ∧ c ≠ 13 ∧ c ≠ 4) :
    ∃ s1, sysIntrList cs s = .ok s1 ∧ s1.input.r = s1.input.w := by
  obtain ⟨s1, he, _, hr, hw, _, _⟩ :=
    sysIntrList_no_commit cs s hcs hp hrw (by omega) (by omega)
  exact ⟨s1, he, by rw [hr, hw, hrw]⟩

/-- Witness for `no_terminator_no_committed_data` at a concrete input. -/
theorem no_terminator_no_committed_data_witness :
    ∃ s1, sysIntrList [97, 98, 99] sys0 = .ok s1 ∧ s1.input.r = s1.input.w :=
  no_terminator_no_committed_data [97, 98, 99] sys0 rfl rfl rfl (by decide)
    (by decide)

/-- CLAIM C1: from a state with no pending committed or uncommitted input
(`r = w = e`), one EOF keystroke makes the next `consoleread` return 0
having delivered no bytes, and the `consoleread` after that does not see
the EOF again: it reaches `sleep` and blocks for new input. -/
theorem eof_single_empty_read (s : Sys) (n : Nat) (hn : 0 < n)
    (hp : s.panicked = false) (hrw : s.input.r = s.input.w)
    (hwe : s.input.w = s.input.e) :
    ∃ s1 i2, sysIntr1 4 s = .ok s1 ∧
      consoleread false n s1.input = .ret 0 [] i2 ∧
      consoleread false n i2 = .sleeps [] i2 n := by
  obtain ⟨m, rfl⟩ : ∃ m, n = m + 1 := ⟨n - 1, by omega⟩
  obtain ⟨pk, lk, io, ⟨buf, r, w, e⟩, cga, ser, wk⟩ := s
  simp only [Sys.input, Sys.panicked, Input.r, Input.w, Input.e] at hp hrw hwe
  subst hp
  subst hwe
  subst hrw
  refine ⟨⟨false, lk, io,
      ⟨fun i => if i = r % INPUT_BUF then 4 else buf i, r, r + 1, r + 1⟩,
      cgaputcC 4 DEFAULT_CONSOLE_COLOR cga, ser ++ serialOf 4, wk + 1⟩,
    ⟨fun i => if i = r % INPUT_BUF then 4 else buf i, r + 1, r + 1, r + 1⟩,
    ?_, ?_, ?_⟩
  · show sysIntr1 4
      ⟨false, lk, io, ⟨buf, r, r, r⟩, cga, ser, wk⟩ = _
    simp +decide [sysIntr1, consputcC, INPUT_BUF]
  · show consoleread false (m + 1)
      ⟨fun i => if i = r % INPUT_BUF then 4 else buf i, r, r + 1, r + 1⟩ = _
    simp +decide [consoleread, readLoop, INPUT_BUF]
  · show consoleread false (m + 1)
      ⟨fun i => if i = r % INPUT_BUF then 4 else buf i, r + 1, r + 1, r + 1⟩ = _
    simp +decide [consoleread, readLoop, INPUT_BUF]

/-- CLAIM C9: a `%s` directive whose argument slot holds the null pointer
renders the literal placeholder "(null)" in place of the string, and the
format walk simply continues: the code substitutes the placeholder before
ever dereferencing, so the call completes without faulting (the model is a
total function).  `pre` is any directive-free prefix of the format. -/
theorem cprintf_null_renders_placeholder (pre rest : List Nat) (args : List Arg)
    (hpre : ∀ c ∈ pre, c < 256 ∧ c ≠ 0 ∧ c ≠ 37) :
    cprintfOut (pre ++ 37 :: 115 :: rest) (.str .none :: args) =
      pre ++ (nullStr ++ cprintfOut rest args) := by
  induction pre with
  | nil => simp +decide [cprintfOut, argStr]
  | cons c pre2 ih =>
    obtain ⟨hlt, h0, h37⟩ := hpre c (by simp)
    have hmod : c % 256 = c := Nat.mod_eq_of_lt hlt
    rw [List.cons_append, cprintfOut.eq_def]
    simp only [hmod, if_neg h0, if_pos h37]
    rw [ih (fun x hx => hpre x (by simp [hx]))]
    simp

/-- Witness for `cprintf_null_renders_placeholder` at a concrete input. -/
theorem cprintf_null_renders_placeholder_witness :
    cprintfOut ([104, 105] ++ 37 :: 115 :: [33]) [.str .none] =
      [104, 105] ++ (nullStr ++ cprintfOut [33] []) :=
  cprintf_null_renders_placeholder [104, 105] [33] [] (by decide)

/-- Witness for `eof_single_empty_read` at a concrete input. -/
theorem eof_single_empty_read_witness :
    ∃ s1 i2, sysIntr1 4 sys0 = .ok s1 ∧
      consoleread false 8 s1.input = .ret 0 [] i2 ∧
      consoleread false 8 i2 = .sleeps [] i2 8 :=
  eof_single_empty_read sys0 8 (by decide) rfl rfl rfl
